import Mathlib

/-!
Shallow embedding of the VGA text-mode driver in `src/vga_driver.rs`
(crate `os_in_rust`): the display-surface model, the writer state machine
(`write_byte`, `write_string`, `new_line`, `clear_row`), the color-attribute
encoding (`ColorCode::new`, `Color`), and the `fmt::Write` adapter
(`write_str`).  Bytes are modelled as `Nat` (all stored byte values are
< 256 by construction) and the screen buffer as a function from
(row, column) to screen characters.  Two semantics are embedded.  The
plain one (`write_byte`, `write_string`, …) treats every store as
succeeding; it coincides with the source wherever the cursor stays inside
the 25×80 `chars` array.  The panic-aware one (`write_byteP`,
`write_stringP`, `write_strP`) models the source's safe array indexing
`self.buffer.chars[row][col]` exactly: a store attempted outside the
array panics (`none`), which is reachable because `new_line` has no row
bound.  A soundness lemma (`write_stringP_sound`) shows the plain
semantics agrees with the panic-aware one on every non-panicking run.
-/

namespace VgaDriver

/-- Constant `SCREEN_HEIGHT` from the source: 25 rows. -/
def SCREEN_HEIGHT : Nat := 25

/-- Constant `SCREEN_WIDTH` from the source: 80 columns. -/
def SCREEN_WIDTH : Nat := 80

/-- The 16-value `Color` enumeration, `repr(u8)` with discriminants 0..15. -/
inductive Color where
  | Black
  | Blue
  | Green
  | Cyan
  | Red
  | Magenta
  | Brown
  | LightGray
  | DarkGray
  | LightBlue
  | LightGreen
  | LightCyan
  | LightRed
  | Pink
  | Yellow
  | White
deriving DecidableEq

/-- The `as u8` cast of a `Color`: its declared discriminant. -/
def Color.toU8 : Color → Nat
  | .Black => 0
  | .Blue => 1
  | .Green => 2
  | .Cyan => 3
  | .Red => 4
  | .Magenta => 5
  | .Brown => 6
  | .LightGray => 7
  | .DarkGray => 8
  | .LightBlue => 9
  | .LightGreen => 10
  | .LightCyan => 11
  | .LightRed => 12
  | .Pink => 13
  | .Yellow => 14
  | .White => 15

/-- Function `ColorCode::new(foreground, background)`:
`ColorCode((background as u8) << 4 | (foreground as u8))`.
The wrapped `u8` value is modelled as a `Nat` (it is provably < 256). -/
def ColorCode.new (foreground background : Color) : Nat :=
  (background.toU8 <<< 4) ||| foreground.toU8

/-- Struct `ScreenChar`: one display cell, a character byte plus an attribute byte. -/
structure ScreenChar where
  ascii_char : Nat
  color_code : Nat
deriving DecidableEq

/-- The VGA text buffer: the 2D `chars` array, modelled as a total function
from (row, column) to the cell stored there. -/
def Buffer : Type := Nat → Nat → ScreenChar

/-- A volatile write of one cell: `self.buffer.chars[row][col].write(v)`. -/
def Buffer.write (buf : Buffer) (row col : Nat) (v : ScreenChar) : Buffer :=
  fun r c => if r = row ∧ c = col then v else buf r c

/-- Struct `VgaWriter`: column position, row position, current color, buffer. -/
structure VgaWriter where
  col_pos : Nat
  row_pos : Nat
  color_code : Nat
  buffer : Buffer

/-- Method `VgaWriter::new_line`: `self.row_pos += 1; self.col_pos = 0;`. -/
def VgaWriter.new_line (w : VgaWriter) : VgaWriter :=
  { w with row_pos := w.row_pos + 1, col_pos := 0 }

/-- Method `VgaWriter::write_byte`: on `b'\n'` (10) start a new line; otherwise,
if `col_pos >= SCREEN_WIDTH` first start a new line, then store the byte
with the current color at (row_pos, col_pos) and increment `col_pos`. -/
def VgaWriter.write_byte (w : VgaWriter) (text_as_byte : Nat) : VgaWriter :=
  if text_as_byte = 10 then
    w.new_line
  else
    let w1 := if w.col_pos ≥ SCREEN_WIDTH then w.new_line else w
    { w1 with
      buffer := w1.buffer.write w1.row_pos w1.col_pos
        ⟨text_as_byte, w1.color_code⟩,
      col_pos := w1.col_pos + 1 }

/-- The per-byte body of `VgaWriter::write_string`: bytes in `0x20..=0x7e`
or `b'\n'` go to `write_byte` unchanged, every other byte is replaced by
the sentinel `0xfe`. -/
def VgaWriter.write_string_step (w : VgaWriter) (byte : Nat) : VgaWriter :=
  if (0x20 ≤ byte ∧ byte ≤ 0x7e) ∨ byte = 10 then
    w.write_byte byte
  else
    w.write_byte 0xfe

/-- Method `VgaWriter::write_string`: iterate `write_string_step` over the bytes
of the input. -/
def VgaWriter.write_string (w : VgaWriter) (s : List Nat) : VgaWriter :=
  s.foldl VgaWriter.write_string_step w

/-- Method `VgaWriter::clear_row`: write a blank cell (space `b' '` with the
current color) at every column `0..SCREEN_WIDTH` of the given row. -/
def VgaWriter.clear_row (w : VgaWriter) (row : Nat) : VgaWriter :=
  { w with
    buffer := (List.range SCREEN_WIDTH).foldl
      (fun buf col => buf.write row col ⟨0x20, w.color_code⟩) w.buffer }

/-- The `core::fmt::Error` type. -/
inductive FmtError where
  | error
deriving DecidableEq

/-- The `fmt::Write` impl: `write_str` calls `write_string` and returns
`Ok(())`. -/
def VgaWriter.write_str (w : VgaWriter) (s : List Nat) :
    VgaWriter × Except FmtError Unit :=
  (w.write_string s, Except.ok ())

/-- The initializer of the `VGA_WRITER` singleton: cursor (0,0), color
`ColorCode::new(Color::Yellow, Color::Black)`.  The buffer points at
memory-mapped VGA memory whose initial contents the program does not set,
so the initial buffer is a parameter. -/
def VGA_WRITER_init (buf : Buffer) : VgaWriter :=
  { col_pos := 0
    row_pos := 0
    color_code := ColorCode.new Color.Yellow Color.Black
    buffer := buf }

/-- One call into the writer: either `write_byte` of a byte or
`write_string` of a byte sequence. -/
inductive WriterOp where
  | byte (b : Nat)
  | str (s : List Nat)

/-- Run a sequence of `write_byte` / `write_string` calls. -/
def VgaWriter.run (w : VgaWriter) : List WriterOp → VgaWriter
  | [] => w
  | WriterOp.byte b :: ops => (w.write_byte b).run ops
  | WriterOp.str s :: ops => (w.write_string s).run ops

/-- A concrete all-zero initial buffer, used to instantiate witnesses. -/
def buf0 : Buffer := fun _ _ => ⟨0, 0⟩

/-- The store step of `write_byte`'s default arm under real array-index
semantics: `self.buffer.chars[row][col].write(ScreenChar {..}); self.col_pos += 1`.
The safe indexing succeeds only when (row_pos, col_pos) lies inside the
25×80 `chars` array; otherwise it panics (`none`). -/
def VgaWriter.storeChar (w : VgaWriter) (text_as_byte : Nat) : Option VgaWriter :=
  if w.row_pos < SCREEN_HEIGHT ∧ w.col_pos < SCREEN_WIDTH then
    some { w with
      buffer := w.buffer.write w.row_pos w.col_pos ⟨text_as_byte, w.color_code⟩,
      col_pos := w.col_pos + 1 }
  else
    none

/-- Panic-aware `VgaWriter::write_byte`: as `write_byte`, but the store
goes through `storeChar`, so a store at a row ≥ 25 panics instead of
silently succeeding. -/
def VgaWriter.write_byteP (w : VgaWriter) (text_as_byte : Nat) : Option VgaWriter :=
  if text_as_byte = 10 then
    some w.new_line
  else if w.col_pos ≥ SCREEN_WIDTH then
    w.new_line.storeChar text_as_byte
  else
    w.storeChar text_as_byte

/-- Panic-aware per-byte body of `write_string`: same sanitization match
as `write_string_step`, delegating to `write_byteP`. -/
def VgaWriter.write_string_stepP (w : VgaWriter) (byte : Nat) : Option VgaWriter :=
  if (0x20 ≤ byte ∧ byte ≤ 0x7e) ∨ byte = 10 then
    w.write_byteP byte
  else
    w.write_byteP 0xfe

/-- Panic-aware `VgaWriter::write_string`: the loop stops (panics) at the
first byte whose store indexes out of bounds. -/
def VgaWriter.write_stringP (w : VgaWriter) : List Nat → Option VgaWriter
  | [] => some w
  | b :: t => (w.write_string_stepP b).bind fun w1 => w1.write_stringP t

/-- Panic-aware `fmt::Write` adapter: returns `Ok(())` whenever
`write_string` returns at all, and never returns on a panicking input. -/
def VgaWriter.write_strP (w : VgaWriter) (s : List Nat) :
    Option (VgaWriter × Except FmtError Unit) :=
  (w.write_stringP s).map fun w1 => (w1, Except.ok ())

/-! ### Unfolding equations for `write_byte` -/

theorem write_byte_of_newline (w : VgaWriter) : w.write_byte 10 = w.new_line :=
  rfl

theorem write_byte_of_wrap (w : VgaWriter) (x : Nat) (hb : x ≠ 10)
    (hc : SCREEN_WIDTH ≤ w.col_pos) :
    w.write_byte x =
      { col_pos := 1, row_pos := w.row_pos + 1, color_code := w.color_code,
        buffer := w.buffer.write (w.row_pos + 1) 0 ⟨x, w.color_code⟩ } := by
  unfold VgaWriter.write_byte
  rw [if_neg hb, if_pos (show w.col_pos ≥ SCREEN_WIDTH from hc)]
  rfl

theorem write_byte_of_fit (w : VgaWriter) (x : Nat) (hb : x ≠ 10)
    (hc : w.col_pos < SCREEN_WIDTH) :
    w.write_byte x =
      { col_pos := w.col_pos + 1, row_pos := w.row_pos,
        color_code := w.color_code,
        buffer := w.buffer.write w.row_pos w.col_pos ⟨x, w.color_code⟩ } := by
  unfold VgaWriter.write_byte
  rw [if_neg hb, if_neg (show ¬ w.col_pos ≥ SCREEN_WIDTH by omega)]

theorem write_string_nil (w : VgaWriter) : w.write_string [] = w :=
  rfl

theorem write_string_cons (w : VgaWriter) (b : Nat) (s : List Nat) :
    w.write_string (b :: s) = (w.write_string_step b).write_string s :=
  rfl

/-! ### Field-preservation lemmas -/

theorem write_byte_color_code (w : VgaWriter) (x : Nat) :
    (w.write_byte x).color_code = w.color_code := by
  by_cases hb : x = 10
  · subst hb; rw [write_byte_of_newline]; rfl
  · by_cases hc : SCREEN_WIDTH ≤ w.col_pos
    · rw [write_byte_of_wrap w x hb hc]
    · rw [write_byte_of_fit w x hb (by omega)]

theorem write_string_step_color_code (w : VgaWriter) (b : Nat) :
    (w.write_string_step b).color_code = w.color_code := by
  unfold VgaWriter.write_string_step
  split <;> exact write_byte_color_code _ _

theorem write_string_color_code (s : List Nat) (w : VgaWriter) :
    (w.write_string s).color_code = w.color_code := by
  induction s generalizing w with
  | nil => rfl
  | cons b t ih =>
      rw [write_string_cons, ih, write_string_step_color_code]

/-! ### Column-bound lemmas -/

theorem write_byte_col_le (w : VgaWriter) (x : Nat) :
    (w.write_byte x).col_pos ≤ SCREEN_WIDTH := by
  by_cases hb : x = 10
  · subst hb; rw [write_byte_of_newline]
    show 0 ≤ SCREEN_WIDTH
    omega
  · by_cases hc : SCREEN_WIDTH ≤ w.col_pos
    · rw [write_byte_of_wrap w x hb hc]
      show 1 ≤ SCREEN_WIDTH
      unfold SCREEN_WIDTH
      omega
    · rw [write_byte_of_fit w x hb (by omega)]
      show w.col_pos + 1 ≤ SCREEN_WIDTH
      omega

theorem write_string_step_col_le (w : VgaWriter) (b : Nat) :
    (w.write_string_step b).col_pos ≤ SCREEN_WIDTH := by
  unfold VgaWriter.write_string_step
  split <;> exact write_byte_col_le _ _

theorem write_string_col_le (s : List Nat) (w : VgaWriter)
    (h : w.col_pos ≤ SCREEN_WIDTH) :
    (w.write_string s).col_pos ≤ SCREEN_WIDTH := by
  induction s generalizing w with
  | nil => exact h
  | cons b t ih =>
      rw [write_string_cons]
      exact ih _ (write_string_step_col_le w b)

/-! ### Buffer frame lemmas -/

theorem Buffer.write_ne (buf : Buffer) (row col : Nat) (v : ScreenChar)
    (r c : Nat) (h : ¬(r = row ∧ c = col)) :
    buf.write row col v r c = buf r c := by
  unfold Buffer.write
  rw [if_neg h]

theorem Buffer.write_eq (buf : Buffer) (row col : Nat) (v : ScreenChar) :
    buf.write row col v row col = v := by
  unfold Buffer.write
  rw [if_pos ⟨rfl, rfl⟩]

theorem write_byte_frame_col (w : VgaWriter) (x r c : Nat)
    (hc : SCREEN_WIDTH ≤ c) :
    (w.write_byte x).buffer r c = w.buffer r c := by
  by_cases hb : x = 10
  · subst hb; rw [write_byte_of_newline]; rfl
  · by_cases hw : SCREEN_WIDTH ≤ w.col_pos
    · rw [write_byte_of_wrap w x hb hw]
      exact Buffer.write_ne _ _ _ _ _ _ (by unfold SCREEN_WIDTH at hc; omega)
    · rw [write_byte_of_fit w x hb (by omega)]
      exact Buffer.write_ne _ _ _ _ _ _ (by omega)

theorem write_string_step_frame_col (w : VgaWriter) (b r c : Nat)
    (hc : SCREEN_WIDTH ≤ c) :
    (w.write_string_step b).buffer r c = w.buffer r c := by
  unfold VgaWriter.write_string_step
  split <;> exact write_byte_frame_col _ _ _ _ hc

theorem write_string_frame_col (s : List Nat) (w : VgaWriter) (r c : Nat)
    (hc : SCREEN_WIDTH ≤ c) :
    (w.write_string s).buffer r c = w.buffer r c := by
  induction s generalizing w with
  | nil => rfl
  | cons b t ih =>
      rw [write_string_cons, ih, write_string_step_frame_col _ _ _ _ hc]

theorem write_byte_buffer_cases (w : VgaWriter) (x r c : Nat) :
    ((w.write_byte x).buffer r c).ascii_char = x ∨
      (w.write_byte x).buffer r c = w.buffer r c := by
  by_cases hb : x = 10
  · subst hb; rw [write_byte_of_newline]; exact Or.inr rfl
  · by_cases hw : SCREEN_WIDTH ≤ w.col_pos
    · rw [write_byte_of_wrap w x hb hw]
      by_cases h : r = w.row_pos + 1 ∧ c = 0
      · left
        show (Buffer.write _ _ _ _ r c).ascii_char = x
        rw [h.1, h.2, Buffer.write_eq]
      · exact Or.inr (Buffer.write_ne _ _ _ _ _ _ h)
    · rw [write_byte_of_fit w x hb (by omega)]
      by_cases h : r = w.row_pos ∧ c = w.col_pos
      · left
        show (Buffer.write _ _ _ _ r c).ascii_char = x
        rw [h.1, h.2, Buffer.write_eq]
      · exact Or.inr (Buffer.write_ne _ _ _ _ _ _ h)

/-! ### Unfolding equations for the panic-aware semantics -/

theorem write_byteP_of_newline (w : VgaWriter) :
    w.write_byteP 10 = some w.new_line :=
  rfl

theorem write_byteP_of_wrap (w : VgaWriter) (x : Nat) (hb : x ≠ 10)
    (hc : SCREEN_WIDTH ≤ w.col_pos) (hrow : w.row_pos + 1 < SCREEN_HEIGHT) :
    w.write_byteP x =
      some { col_pos := 1, row_pos := w.row_pos + 1,
             color_code := w.color_code,
             buffer := w.buffer.write (w.row_pos + 1) 0 ⟨x, w.color_code⟩ } := by
  unfold VgaWriter.write_byteP VgaWriter.storeChar
  rw [if_neg hb, if_pos (show w.col_pos ≥ SCREEN_WIDTH from hc),
    if_pos (show w.new_line.row_pos < SCREEN_HEIGHT ∧
        w.new_line.col_pos < SCREEN_WIDTH from
      ⟨hrow, (by decide : (0:Nat) < SCREEN_WIDTH)⟩)]
  rfl

theorem write_byteP_of_wrap_panic (w : VgaWriter) (x : Nat) (hb : x ≠ 10)
    (hc : SCREEN_WIDTH ≤ w.col_pos) (hrow : SCREEN_HEIGHT ≤ w.row_pos + 1) :
    w.write_byteP x = none := by
  unfold VgaWriter.write_byteP VgaWriter.storeChar
  rw [if_neg hb, if_pos (show w.col_pos ≥ SCREEN_WIDTH from hc),
    if_neg (show ¬(w.new_line.row_pos < SCREEN_HEIGHT ∧
        w.new_line.col_pos < SCREEN_WIDTH) from fun h => by
      have h1 : w.row_pos + 1 < SCREEN_HEIGHT := h.1
      omega)]

theorem write_byteP_of_fit (w : VgaWriter) (x : Nat) (hb : x ≠ 10)
    (hc : w.col_pos < SCREEN_WIDTH) (hrow : w.row_pos < SCREEN_HEIGHT) :
    w.write_byteP x =
      some { col_pos := w.col_pos + 1, row_pos := w.row_pos,
             color_code := w.color_code,
             buffer := w.buffer.write w.row_pos w.col_pos ⟨x, w.color_code⟩ } := by
  unfold VgaWriter.write_byteP VgaWriter.storeChar
  rw [if_neg hb, if_neg (show ¬ w.col_pos ≥ SCREEN_WIDTH by omega),
    if_pos ⟨hrow, hc⟩]

theorem write_byteP_of_fit_panic (w : VgaWriter) (x : Nat) (hb : x ≠ 10)
    (hc : w.col_pos < SCREEN_WIDTH) (hrow : SCREEN_HEIGHT ≤ w.row_pos) :
    w.write_byteP x = none := by
  unfold VgaWriter.write_byteP VgaWriter.storeChar
  rw [if_neg hb, if_neg (show ¬ w.col_pos ≥ SCREEN_WIDTH by omega),
    if_neg (show ¬(w.row_pos < SCREEN_HEIGHT ∧ w.col_pos < SCREEN_WIDTH)
      from fun h => by omega)]

theorem write_stringP_nil (w : VgaWriter) : w.write_stringP [] = some w :=
  rfl

theorem write_stringP_cons (w : VgaWriter) (b : Nat) (t : List Nat) :
    w.write_stringP (b :: t) =
      (w.write_string_stepP b).bind fun w1 => w1.write_stringP t :=
  rfl

/-! ### Soundness: a non-panicking run agrees with the plain semantics -/

theorem write_byteP_sound (w : VgaWriter) (x : Nat) (w' : VgaWriter)
    (h : w.write_byteP x = some w') : w' = w.write_byte x := by
  by_cases hb : x = 10
  · subst hb
    rw [write_byteP_of_newline] at h
    rw [write_byte_of_newline]
    exact (Option.some.inj h).symm
  · by_cases hc : SCREEN_WIDTH ≤ w.col_pos
    · by_cases hrow : w.row_pos + 1 < SCREEN_HEIGHT
      · rw [write_byteP_of_wrap w x hb hc hrow] at h
        rw [write_byte_of_wrap w x hb hc]
        exact (Option.some.inj h).symm
      · rw [write_byteP_of_wrap_panic w x hb hc (by omega)] at h
        exact Option.noConfusion h
    · by_cases hrow : w.row_pos < SCREEN_HEIGHT
      · rw [write_byteP_of_fit w x hb (by omega) hrow] at h
        rw [write_byte_of_fit w x hb (by omega)]
        exact (Option.some.inj h).symm
      · rw [write_byteP_of_fit_panic w x hb (by omega) (by omega)] at h
        exact Option.noConfusion h

theorem write_string_stepP_sound (w : VgaWriter) (b : Nat) (w' : VgaWriter)
    (h : w.write_string_stepP b = some w') : w' = w.write_string_step b := by
  unfold VgaWriter.write_string_stepP at h
  unfold VgaWriter.write_string_step
  by_cases hp : (0x20 ≤ b ∧ b ≤ 0x7e) ∨ b = 10
  · rw [if_pos hp] at h
    rw [if_pos hp]
    exact write_byteP_sound w b w' h
  · rw [if_neg hp] at h
    rw [if_neg hp]
    exact write_byteP_sound w 0xfe w' h

theorem write_stringP_sound : ∀ (s : List Nat) (w w' : VgaWriter),
    w.write_stringP s = some w' → w' = w.write_string s := by
  intro s
  induction s with
  | nil =>
      intro w w' h
      exact (Option.some.inj h).symm
  | cons b t ih =>
      intro w w' h
      rw [write_stringP_cons] at h
      cases ho : w.write_string_stepP b with
      | none => rw [ho] at h; exact Option.noConfusion h
      | some w1 =>
          rw [ho] at h
          rw [write_string_cons, ← write_string_stepP_sound w b w1 ho]
          exact ih w1 w' h

/-! ### Claim theorems -/

/-- Claim C4: for every writer state, `write_byte` on the newline byte writes no
cell (the buffer is unchanged), sets `col_pos` to 0 and increments
`row_pos` by exactly 1. -/
theorem newline_effect : ∀ w : VgaWriter,
    (w.write_byte 10).buffer = w.buffer ∧
    (w.write_byte 10).col_pos = 0 ∧
    (w.write_byte 10).row_pos = w.row_pos + 1 :=
  fun _ => ⟨rfl, rfl, rfl⟩

/-- Claim C7: `ColorCode::new(fg, bg)` packs the two 4-bit color codes into one
byte, low nibble = foreground, high nibble = background, and every `Color`
enumerant carries its stated discriminant 0–15 (Black=0 … White=15). -/
theorem color_code_packing : ∀ fg bg : Color,
    ColorCode.new fg bg % 16 = fg.toU8 ∧
    ColorCode.new fg bg / 16 = bg.toU8 ∧
    ColorCode.new fg bg = 16 * bg.toU8 + fg.toU8 ∧
    ColorCode.new fg bg < 256 ∧
    Color.toU8 Color.Black = 0 ∧ Color.toU8 Color.Blue = 1 ∧
    Color.toU8 Color.Green = 2 ∧ Color.toU8 Color.Cyan = 3 ∧
    Color.toU8 Color.Red = 4 ∧ Color.toU8 Color.Magenta = 5 ∧
    Color.toU8 Color.Brown = 6 ∧ Color.toU8 Color.LightGray = 7 ∧
    Color.toU8 Color.DarkGray = 8 ∧ Color.toU8 Color.LightBlue = 9 ∧
    Color.toU8 Color.LightGreen = 10 ∧ Color.toU8 Color.LightCyan = 11 ∧
    Color.toU8 Color.LightRed = 12 ∧ Color.toU8 Color.Pink = 13 ∧
    Color.toU8 Color.Yellow = 14 ∧ Color.toU8 Color.White = 15 := by
  intro fg bg
  cases fg <;> cases bg <;> decide

/-- Claim C9: `write_byte`, `write_string` and `new_line` never change the
writer's `color_code` field. -/
theorem color_code_frame : ∀ (w : VgaWriter) (b : Nat) (s : List Nat),
    (w.write_byte b).color_code = w.color_code ∧
    (w.write_string s).color_code = w.color_code ∧
    w.new_line.color_code = w.color_code :=
  fun w b s => ⟨write_byte_color_code w b, write_string_color_code s w, rfl⟩

/-- Claim C8 counterexample: `write_str` is not total over all byte
sequences — on the all-ASCII input of 25 newlines followed by 'A' the 25
newlines drive `row_pos` to 25 and the store for 'A' indexes
`chars[25][0]`, which panics, so `write_str` never returns `Ok(())` on
that input. -/
theorem ascii_input_panics :
    (VGA_WRITER_init buf0).write_strP
      (List.replicate 25 10 ++ [65]) = none :=
  rfl

/-- Claim C8 (amended): `write_str` never returns a failure value —
whenever it returns at all it returns `Ok(())` with the state produced by
`write_string` — and no byte sequence is rejected: a non-printable,
non-newline byte is sanitized to the sentinel `0xfe` rather than causing
an error.  It is not total: an input whose store reaches a row ≥ 25
panics and never returns. -/
theorem write_str_no_error : ∀ (w : VgaWriter) (s : List Nat),
    (∀ r, w.write_strP s = some r →
      r.2 = Except.ok () ∧ w.write_stringP s = some r.1 ∧
      r.1 = w.write_string s) ∧
    (∀ b : Nat, ¬((0x20 ≤ b ∧ b ≤ 0x7e) ∨ b = 10) →
      w.write_string_stepP b = w.write_byteP 0xfe) := by
  intro w s
  constructor
  · intro r hr
    unfold VgaWriter.write_strP at hr
    cases ho : w.write_stringP s with
    | none => rw [ho] at hr; exact Option.noConfusion hr
    | some w1 =>
        rw [ho] at hr
        have he := Option.some.inj hr
        subst he
        exact ⟨rfl, rfl, write_stringP_sound s w w1 ho⟩
  · intro b hb
    unfold VgaWriter.write_string_stepP
    rw [if_neg hb]

theorem write_str_no_error_witness :
    (VGA_WRITER_init buf0).write_stringP [65] =
      some { col_pos := 1, row_pos := 0, color_code := 14,
             buffer := Buffer.write buf0 0 0 ⟨65, 14⟩ } ∧
    VgaWriter.write_string_stepP (VGA_WRITER_init buf0) 0 =
      (VGA_WRITER_init buf0).write_byteP 0xfe :=
  ⟨((write_str_no_error (VGA_WRITER_init buf0) [65]).1
      ({ col_pos := 1, row_pos := 0, color_code := 14,
         buffer := Buffer.write buf0 0 0 ⟨65, 14⟩ }, Except.ok ()) rfl).2.1,
   (write_str_no_error (VGA_WRITER_init buf0) []).2 0 (by decide)⟩

/-- Claim C2 counterexample: in the "Hi\n!" scenario from a fresh writer the
attribute byte stored at cell (0,0) is not `0xE0` (it is `0x0E`:
foreground Yellow=14 in the low nibble, background Black=0 in the high
nibble). -/
theorem hi_scenario_attr_not_E0 :
    (((VGA_WRITER_init buf0).write_string [72, 105, 10, 33]).buffer 0 0).color_code ≠ 0xE0 := by
  decide

/-- Claim C2 (amended): fresh writer with color (Yellow, Black): writing
"Hi\n!" (bytes 72, 105, 10, 33) stores 'H' at (0,0) and 'i' at (0,1) with
attribute byte `0x0E`, the newline sets the cursor to row 1 column 0,
'!' lands at (1,0), and the final cursor is (1,1). -/
theorem hi_scenario : ∀ buf : Buffer,
    ((VGA_WRITER_init buf).write_string [72, 105, 10, 33]).buffer 0 0 = ⟨72, 0x0E⟩ ∧
    ((VGA_WRITER_init buf).write_string [72, 105, 10, 33]).buffer 0 1 = ⟨105, 0x0E⟩ ∧
    ((VGA_WRITER_init buf).write_string [72, 105, 10]).row_pos = 1 ∧
    ((VGA_WRITER_init buf).write_string [72, 105, 10]).col_pos = 0 ∧
    ((VGA_WRITER_init buf).write_string [72, 105, 10, 33]).buffer 1 0 = ⟨33, 0x0E⟩ ∧
    ((VGA_WRITER_init buf).write_string [72, 105, 10, 33]).row_pos = 1 ∧
    ((VGA_WRITER_init buf).write_string [72, 105, 10, 33]).col_pos = 1 :=
  fun _ => ⟨rfl, rfl, rfl, rfl, rfl, rfl, rfl⟩

/-- Claim C1 counterexample: `row_pos < SCREEN_HEIGHT` is not an invariant —
25 consecutive `write_byte(b'\n')` calls from the initial writer state
leave `row_pos = 25 = SCREEN_HEIGHT`. -/
theorem row_bound_fails :
    ¬ (((VGA_WRITER_init buf0).run
        (List.replicate SCREEN_HEIGHT (WriterOp.byte 10))).row_pos < SCREEN_HEIGHT) := by
  decide

/-- Claim C1 (amended): for every sequence of `write_byte` / `write_string`
calls from the initial writer state, `0 ≤ col_pos ≤ SCREEN_WIDTH` holds at
all times; the row bound is not maintained — `new_line` increments
`row_pos` unconditionally, without any bound. -/
theorem cursor_invariant : ∀ (buf : Buffer) (ops : List WriterOp),
    ((VGA_WRITER_init buf).run ops).col_pos ≤ SCREEN_WIDTH ∧
    ∀ w : VgaWriter, w.new_line.row_pos = w.row_pos + 1 := by
  have hrun : ∀ (ops : List WriterOp) (w : VgaWriter),
      w.col_pos ≤ SCREEN_WIDTH → (w.run ops).col_pos ≤ SCREEN_WIDTH := by
    intro ops
    induction ops with
    | nil => exact fun w h => h
    | cons op t ih =>
        intro w h
        cases op with
        | byte b => exact ih _ (write_byte_col_le w b)
        | str s => exact ih _ (write_string_col_le s w h)
  intro buf ops
  exact ⟨hrun ops _ (Nat.zero_le _), fun _ => rfl⟩

/-- Bytes never present in the buffer and never fed to `write_byte` do not
appear in the buffer afterwards. -/
theorem write_string_no_new_byte (b : Nat)
    (hb1 : ¬(0x20 ≤ b ∧ b ≤ 0x7e)) (hb2 : b ≠ 10) (hb3 : b ≠ 0xfe) :
    ∀ (s : List Nat) (w : VgaWriter),
      (∀ r c, (w.buffer r c).ascii_char ≠ b) →
      ∀ r c, ((w.write_string s).buffer r c).ascii_char ≠ b := by
  intro s
  induction s with
  | nil => exact fun w h => h
  | cons x t ih =>
      intro w h r c
      rw [write_string_cons]
      refine ih _ (fun r' c' => ?_) r c
      unfold VgaWriter.write_string_step
      split
      case isTrue hx =>
        rcases write_byte_buffer_cases w x r' c' with hcell | hcell
        · rw [hcell]
          rcases hx with hx | hx
          · exact fun hxb => hb1 (hxb ▸ hx)
          · exact fun hxb => hb2 (hxb ▸ hx)
        · rw [hcell]; exact h r' c'
      case isFalse hx =>
        rcases write_byte_buffer_cases w 0xfe r' c' with hcell | hcell
        · rw [hcell]; exact fun hxb => hb3 hxb.symm
        · rw [hcell]; exact h r' c'

/-- Claim C3 counterexample: the byte `0xfe` is non-printable and not newline,
yet writing it stores `0xfe` itself in the cell — so "a non-printable,
non-newline input byte is never stored in a cell as itself" fails at
input byte `0xfe`. -/
theorem sentinel_byte_stored_as_itself :
    ¬((0x20:Nat) ≤ 0xfe ∧ (0xfe:Nat) ≤ 0x7e) ∧ (0xfe:Nat) ≠ 10 ∧
    (((VGA_WRITER_init buf0).write_string [0xfe]).buffer 0 0).ascii_char = 0xfe := by
  decide

/-- Claim C3 (amended): `write_string` passes a byte to `write_byte` unchanged
when it is printable (0x20–0x7E) or newline, and passes the sentinel
`0xfe` in its place otherwise; hence a non-printable, non-newline input
byte other than `0xfe` itself is never stored in a cell as itself. -/
theorem sanitization :
    (∀ (w : VgaWriter) (b : Nat),
      (((0x20 ≤ b ∧ b ≤ 0x7e) ∨ b = 10) → w.write_string_step b = w.write_byte b) ∧
      (¬((0x20 ≤ b ∧ b ≤ 0x7e) ∨ b = 10) → w.write_string_step b = w.write_byte 0xfe)) ∧
    (∀ (w : VgaWriter) (s : List Nat) (b : Nat),
      ¬(0x20 ≤ b ∧ b ≤ 0x7e) → b ≠ 10 → b ≠ 0xfe →
      (∀ r c, (w.buffer r c).ascii_char ≠ b) →
      ∀ r c, ((w.write_string s).buffer r c).ascii_char ≠ b) := by
  constructor
  · intro w b
    constructor
    · intro hb
      unfold VgaWriter.write_string_step
      rw [if_pos hb]
    · intro hb
      unfold VgaWriter.write_string_step
      rw [if_neg hb]
  · intro w s b hb1 hb2 hb3 h
    exact write_string_no_new_byte b hb1 hb2 hb3 s w h

theorem sanitization_witness :
    (((VGA_WRITER_init buf0).write_string [200, 65]).buffer 0 0).ascii_char ≠ 201 :=
  sanitization.2 (VGA_WRITER_init buf0) [200, 65] 201 (by decide) (by decide)
    (by decide) (fun _ _ => (show (0:Nat) ≠ 201 by decide)) 0 0

/-- Claim C5 counterexample: the state with cursor (24, 80) is reachable
without any panic (24 newlines then 80 printable bytes, all stores on row
24), yet the next printable byte — which the claim says is stored at
column 0 of the next row — makes the source index `chars[25][0]`, which
panics: the byte is dropped, refuting "no byte is dropped". -/
theorem wrap_at_last_row_panics :
    ((VGA_WRITER_init buf0).write_stringP
        (List.replicate 24 10 ++ List.replicate 80 65)).map VgaWriter.col_pos =
      some 80 ∧
    ((VGA_WRITER_init buf0).write_stringP
        (List.replicate 24 10 ++ List.replicate 80 65)).map VgaWriter.row_pos =
      some 24 ∧
    (VGA_WRITER_init buf0).write_stringP
        (List.replicate 24 10 ++ List.replicate 80 65 ++ [65]) = none :=
  ⟨rfl, rfl, rfl⟩

/-- Claim C5 (amended): with `col_pos ≤ SCREEN_WIDTH`, no run of
`write_string` ever touches a cell at a column ≥ SCREEN_WIDTH, and any
run that returns keeps `col_pos ≤ SCREEN_WIDTH`; when a non-newline byte
arrives with `col_pos = SCREEN_WIDTH` the writer first starts a new line
and then, provided the new row is still inside the 25-row surface, stores
the byte at column 0 of that row; if the new row is out of bounds the
store panics and the byte is never stored. -/
theorem wrap_safety (w : VgaWriter) (s : List Nat)
    (hcol : w.col_pos ≤ SCREEN_WIDTH) :
    (∀ w', w.write_stringP s = some w' →
      (∀ r c, SCREEN_WIDTH ≤ c → w'.buffer r c = w.buffer r c) ∧
      w'.col_pos ≤ SCREEN_WIDTH) ∧
    (∀ b, b ≠ 10 → w.col_pos = SCREEN_WIDTH → w.row_pos + 1 < SCREEN_HEIGHT →
      w.write_byteP b =
        some { col_pos := 1, row_pos := w.row_pos + 1,
               color_code := w.color_code,
               buffer := w.buffer.write (w.row_pos + 1) 0 ⟨b, w.color_code⟩ }) ∧
    (∀ b, b ≠ 10 → w.col_pos = SCREEN_WIDTH → SCREEN_HEIGHT ≤ w.row_pos + 1 →
      w.write_byteP b = none) := by
  refine ⟨fun w' hw' => ?_,
    fun b hb hw hrow => write_byteP_of_wrap w b hb (le_of_eq hw.symm) hrow,
    fun b hb hw hrow => write_byteP_of_wrap_panic w b hb (le_of_eq hw.symm) hrow⟩
  have he := write_stringP_sound s w w' hw'
  subst he
  exact ⟨fun r c hc => write_string_frame_col s w r c hc,
    write_string_col_le s w hcol⟩

theorem wrap_safety_witness :
    VgaWriter.write_byteP
        { col_pos := 80, row_pos := 0, color_code := 14, buffer := buf0 } 65 =
      some { col_pos := 1, row_pos := 1, color_code := 14,
             buffer := Buffer.write buf0 1 0 ⟨65, 14⟩ } ∧
    VgaWriter.write_byteP
        { col_pos := 80, row_pos := 24, color_code := 14, buffer := buf0 } 65 =
      none :=
  ⟨(wrap_safety { col_pos := 80, row_pos := 0, color_code := 14, buffer := buf0 }
      [] (by decide)).2.1 65 (by decide) rfl (by decide),
   (wrap_safety { col_pos := 80, row_pos := 24, color_code := 14, buffer := buf0 }
      [] (by decide)).2.2 65 (by decide) rfl (by decide)⟩

/-- The clearing loop of `clear_row` evaluated pointwise: columns below
the loop bound hold the blank cell, everything else is unchanged. -/
theorem clear_fold (row : Nat) (blank : ScreenChar) :
    ∀ (n : Nat) (buf : Buffer) (r c : Nat),
      ((List.range n).foldl (fun b col => b.write row col blank) buf) r c =
        if r = row ∧ c < n then blank else buf r c := by
  intro n
  induction n with
  | zero => intro buf r c; simp
  | succ n ih =>
      intro buf r c
      rw [List.range_succ, List.foldl_append, List.foldl_cons, List.foldl_nil]
      by_cases h1 : r = row ∧ c = n
      · rw [h1.1, h1.2, Buffer.write_eq, if_pos ⟨rfl, Nat.lt_succ_self n⟩]
      · rw [Buffer.write_ne _ _ _ _ _ _ h1, ih]
        split_ifs <;> first | rfl | omega

/-- Claim C10: `clear_row(r)` stores a space (0x20) with the current color at
every column of row `r`, leaves every other row untouched, and changes
neither the cursor nor the color. -/
theorem clear_row_effect (w : VgaWriter) (row : Nat)
    (_hrow : row < SCREEN_HEIGHT) :
    (∀ col, col < SCREEN_WIDTH →
      (w.clear_row row).buffer row col = ⟨0x20, w.color_code⟩) ∧
    (∀ r c, r ≠ row → (w.clear_row row).buffer r c = w.buffer r c) ∧
    (w.clear_row row).col_pos = w.col_pos ∧
    (w.clear_row row).row_pos = w.row_pos ∧
    (w.clear_row row).color_code = w.color_code := by
  refine ⟨fun col hcol => ?_, fun r c hr => ?_, rfl, rfl, rfl⟩
  · show ((List.range SCREEN_WIDTH).foldl
        (fun buf col => buf.write row col ⟨0x20, w.color_code⟩) w.buffer) row col = _
    rw [clear_fold]
    rw [if_pos ⟨rfl, hcol⟩]
  · show ((List.range SCREEN_WIDTH).foldl
        (fun buf col => buf.write row col ⟨0x20, w.color_code⟩) w.buffer) r c = _
    rw [clear_fold]
    rw [if_neg (fun h => hr h.1)]

theorem clear_row_effect_witness :
    ((VGA_WRITER_init buf0).clear_row 0).buffer 0 0 = ⟨0x20, 14⟩ :=
  (clear_row_effect (VGA_WRITER_init buf0) 0 (by decide)).1 0 (by decide)

/-- Writing a run of printable bytes that fits in the current row stores
the bytes consecutively from the current cursor position with the current
color, advances `col_pos` by the length, and touches nothing to the left
of the starting column or on other rows. -/
theorem write_string_printable_run :
    ∀ (s : List Nat) (w : VgaWriter),
      (∀ b ∈ s, 0x20 ≤ b ∧ b ≤ 0x7e) →
      w.col_pos + s.length ≤ SCREEN_WIDTH →
      (w.write_string s).col_pos = w.col_pos + s.length ∧
      (w.write_string s).row_pos = w.row_pos ∧
      (w.write_string s).color_code = w.color_code ∧
      (∀ r c, (c < w.col_pos ∨ r ≠ w.row_pos) →
        (w.write_string s).buffer r c = w.buffer r c) ∧
      (∀ i, (h : i < s.length) →
        (w.write_string s).buffer w.row_pos (w.col_pos + i) =
          ⟨s.get ⟨i, h⟩, w.color_code⟩) := by
  intro s
  induction s with
  | nil =>
      intro w _ _
      exact ⟨rfl, rfl, rfl, fun _ _ _ => rfl,
        fun i h => absurd h (Nat.not_lt_zero i)⟩
  | cons b t ih =>
      intro w hp hfit
      have hb := hp b (List.mem_cons_self b t)
      have hbne : b ≠ 10 := by omega
      rw [List.length_cons] at hfit
      have hcw : w.col_pos < SCREEN_WIDTH := by omega
      have hstep : w.write_string (b :: t) = (w.write_byte b).write_string t := by
        rw [write_string_cons]
        congr 1
        unfold VgaWriter.write_string_step
        rw [if_pos (Or.inl hb)]
      have hw1 := write_byte_of_fit w b hbne hcw
      obtain ⟨hcol1, hrow1, hcc1, hframe1, hget1⟩ :=
        ih { col_pos := w.col_pos + 1, row_pos := w.row_pos,
             color_code := w.color_code,
             buffer := w.buffer.write w.row_pos w.col_pos ⟨b, w.color_code⟩ }
          (fun x hx => hp x (List.mem_cons_of_mem _ hx))
          (show w.col_pos + 1 + t.length ≤ SCREEN_WIDTH by omega)
      rw [hstep, hw1]
      refine ⟨by
          rw [hcol1, List.length_cons]
          show w.col_pos + 1 + t.length = w.col_pos + (t.length + 1)
          omega,
        hrow1, hcc1,
        fun r c hrc => ?_, fun i h => ?_⟩
      · have hne : ¬(r = w.row_pos ∧ c = w.col_pos) := by
          rcases hrc with hc | hr
          · exact fun hand => by omega
          · exact fun hand => hr hand.1
        have hrc1 : c < w.col_pos + 1 ∨ r ≠ w.row_pos := by
          rcases hrc with hc | hr
          · exact Or.inl (by omega)
          · exact Or.inr hr
        rw [hframe1 r c hrc1]
        exact Buffer.write_ne _ _ _ _ _ _ hne
      · cases i with
        | zero =>
            have hf := hframe1 w.row_pos w.col_pos (Or.inl (Nat.lt_succ_self _))
            rw [show w.col_pos + 0 = w.col_pos from rfl, hf]
            exact Buffer.write_eq _ _ _ _
        | succ j =>
            rw [List.length_cons] at h
            have h' : j < t.length := by omega
            have hg := hget1 j h'
            rw [show w.col_pos + (j + 1) = w.col_pos + 1 + j from by omega]
            exact hg

/-- Claim C6: for a printable-ASCII byte sequence with no newline and length at
most SCREEN_WIDTH, writing it with the cursor at column 0 stores exactly
its bytes left-to-right in cells (row, 0) … (row, len-1) with the
writer's current color, and leaves the cursor at (row, len). -/
theorem printable_run (w : VgaWriter) (s : List Nat)
    (hp : ∀ b ∈ s, 0x20 ≤ b ∧ b ≤ 0x7e)
    (hlen : s.length ≤ SCREEN_WIDTH) (hcol : w.col_pos = 0) :
    (∀ i, (h : i < s.length) →
      (w.write_string s).buffer w.row_pos i = ⟨s.get ⟨i, h⟩, w.color_code⟩) ∧
    (w.write_string s).col_pos = s.length ∧
    (w.write_string s).row_pos = w.row_pos ∧
    (w.write_string s).color_code = w.color_code := by
  have hfit : w.col_pos + s.length ≤ SCREEN_WIDTH := by rw [hcol]; omega
  obtain ⟨h1, h2, h3, _, h5⟩ := write_string_printable_run s w hp hfit
  refine ⟨fun i h => ?_, by rw [h1, hcol, Nat.zero_add], h2, h3⟩
  have hg := h5 i h
  rw [hcol, Nat.zero_add] at hg
  exact hg

theorem printable_run_witness :
    ((VGA_WRITER_init buf0).write_string [72, 105]).buffer 0 0 = ⟨72, 14⟩ :=
  (printable_run (VGA_WRITER_init buf0) [72, 105] (by decide) (by decide)
    rfl).1 0 (by decide)

end VgaDriver
